import Mathlib

/-!
Verification of the PSL python runtime bridge (`pslpython/runtime.py`).

The file embeds, in order:
* the JSON structured-value model shared by `Configuration` and `Result`,
  with the text encoding used by the bridge (`json.dumps` with its default
  separators `", "` / `": "`, and `json.loads`);
* the JVM lifecycle state machine behind `_init` / `_shutdown` (the jpype
  calls `isJVMStarted`, `startJVM`, `shutdownJVM`);
* the bridge operations `run`, `main`, `_load_args` and the `__main__`
  command line entry, instrumented with an explicit event trace so that
  ordering and "no engine start" properties can be stated.

Numbers are modelled as arbitrary-precision integers (Python `int`); the
encoding functions are written over `List Char` so the parser can be
reasoned about by structural induction.
-/

namespace PslRuntime

/-- The shared structured-value model: JSON values (mappings with string
keys, sequences, strings, numbers, booleans, null).  Mappings are kept as
association lists in insertion order, matching Python dicts. -/
inductive Value : Type where
  | null : Value
  | bool : Bool → Value
  | num : Int → Value
  | str : List Char → Value
  | arr : List Value → Value
  | obj : List (List Char × Value) → Value

/-- Decimal digit sequence of a natural number, most significant first,
as `repr` / `json.dumps` print it. -/
def printNat (n : Nat) : List Char :=
  if n = 0 then ['0'] else ((Nat.digits 10 n).map Nat.digitChar).reverse

/-- Numeric value of a decimal digit character. -/
def charToDigit (c : Char) : Nat := c.toNat - 48

/-- Value of a most-significant-first digit string. -/
def natFromDigits (l : List Char) : Nat :=
  l.foldl (fun a c => 10 * a + charToDigit c) 0

/-- JSON string escaping as `json.dumps` performs it on the characters the
bridge must round-trip: `"` and `\` are escaped, other characters pass
through. -/
def escapeChar (c : Char) : List Char :=
  if c = '"' then ['\\', '"']
  else if c = '\\' then ['\\', '\\']
  else [c]

def escapeStr : List Char → List Char
  | [] => []
  | c :: cs => escapeChar c ++ escapeStr cs

mutual

/-- Serialization as `json.dumps` with its default separators (`", "` between items,
`": "` between a key and its value). -/
def ser : Value → List Char
  | .num n => if n < 0 then '-' :: printNat n.natAbs else printNat n.toNat
  | .str s => '"' :: (escapeStr s ++ ['"'])
  | .bool b => if b then ['t', 'r', 'u', 'e'] else ['f', 'a', 'l', 's', 'e']
  | .null => ['n', 'u', 'l', 'l']
  | .arr xs => '[' :: (serElems xs ++ [']'])
  | .obj es => '{' :: (serEntries es ++ ['}'])

def serElems : List Value → List Char
  | [] => []
  | [x] => ser x
  | x :: y :: ys => ser x ++ ',' :: ' ' :: serElems (y :: ys)

def serEntries : List (List Char × Value) → List Char
  | [] => []
  | [(k, v)] => '"' :: (escapeStr k ++ '"' :: ':' :: ' ' :: ser v)
  | (k, v) :: e :: es =>
      ('"' :: (escapeStr k ++ '"' :: ':' :: ' ' :: ser v)) ++
        ',' :: ' ' :: serEntries (e :: es)

end

/-- JSON insignificant whitespace. -/
def isWs (c : Char) : Bool := c = ' ' || c = '\t' || c = '\n' || c = '\r'

def skipWs : List Char → List Char
  | [] => []
  | c :: cs => if isWs c then skipWs cs else c :: cs

def headIs (c : Char) : List Char → Bool
  | [] => false
  | x :: _ => x = c

def stripPref : List Char → List Char → Option (List Char)
  | [], l => some l
  | _ :: _, [] => none
  | p :: ps, c :: cs => if c = p then stripPref ps cs else none

/-- The two-character escapes accepted by `json.loads` (`\uXXXX` escapes,
which the serializer never emits for the characters modelled here, are
omitted). -/
def unescape (c : Char) : Option Char :=
  if c = '"' then some '"'
  else if c = '\\' then some '\\'
  else if c = '/' then some '/'
  else if c = 'n' then some '\n'
  else if c = 't' then some '\t'
  else if c = 'r' then some '\r'
  else if c = 'b' then some (Char.ofNat 8)
  else if c = 'f' then some (Char.ofNat 12)
  else none

/-- Body of a JSON string after the opening quote: characters up to the
unescaped closing quote, processing escapes. -/
def parseStrBody : List Char → Option (List Char × List Char)
  | [] => none
  | c :: cs =>
    if c = '"' then some ([], cs)
    else if c = '\\' then
      match cs with
      | [] => none
      | e :: cs₂ =>
        match unescape e with
        | some d => (parseStrBody cs₂).map fun p => (d :: p.1, p.2)
        | none => none
    else (parseStrBody cs).map fun p => (c :: p.1, p.2)

/-- A run of decimal digits as a number (the integer fragment of the JSON
number grammar, all that integer-valued round trips exercise). -/
def parseNum (l : List Char) : Option (Nat × List Char) :=
  let ds := l.takeWhile Char.isDigit
  if ds.isEmpty then none
  else some (natFromDigits ds, l.dropWhile Char.isDigit)

mutual

/-- Recursive-descent JSON value parser (fuel-indexed; `loads` supplies
ample fuel).  Mirrors `json.loads`: skips whitespace, dispatches on the
first character. -/
def parseV : Nat → List Char → Option (Value × List Char)
  | 0, _ => none
  | fuel + 1, input =>
    match skipWs input with
    | [] => none
    | c :: r =>
      if c = 'n' then (stripPref ['u', 'l', 'l'] r).map fun r₂ => (Value.null, r₂)
      else if c = 't' then (stripPref ['r', 'u', 'e'] r).map fun r₂ => (Value.bool true, r₂)
      else if c = 'f' then (stripPref ['a', 'l', 's', 'e'] r).map fun r₂ => (Value.bool false, r₂)
      else if c = '"' then (parseStrBody r).map fun p => (Value.str p.1, p.2)
      else if c = '[' then
        if headIs ']' (skipWs r) then some (Value.arr [], (skipWs r).tail)
        else (parseElems fuel r).map fun p => (Value.arr p.1, p.2)
      else if c = '{' then
        if headIs '}' (skipWs r) then some (Value.obj [], (skipWs r).tail)
        else (parseEntries fuel r).map fun p => (Value.obj p.1, p.2)
      else if c = '-' then (parseNum r).map fun p => (Value.num (-(p.1 : Int)), p.2)
      else if c.isDigit then (parseNum (c :: r)).map fun p => (Value.num (p.1 : Int), p.2)
      else none

/-- One or more comma-separated array elements followed by `]`. -/
def parseElems : Nat → List Char → Option (List Value × List Char)
  | 0, _ => none
  | fuel + 1, input =>
    match parseV fuel input with
    | none => none
    | some (v, r₁) =>
      if headIs ',' (skipWs r₁) then
        match parseElems fuel (skipWs r₁).tail with
        | some (vs, r₂) => some (v :: vs, r₂)
        | none => none
      else if headIs ']' (skipWs r₁) then some ([v], (skipWs r₁).tail)
      else none

/-- One or more comma-separated object entries followed by `}`. -/
def parseEntries : Nat → List Char → Option (List (List Char × Value) × List Char)
  | 0, _ => none
  | fuel + 1, input =>
    if headIs '"' (skipWs input) then
      match parseStrBody (skipWs input).tail with
      | none => none
      | some (k, r₁) =>
        if headIs ':' (skipWs r₁) then
          match parseV fuel (skipWs r₁).tail with
          | none => none
          | some (v, r₂) =>
            if headIs ',' (skipWs r₂) then
              match parseEntries fuel (skipWs r₂).tail with
              | some (es, r₃) => some ((k, v) :: es, r₃)
              | none => none
            else if headIs '}' (skipWs r₂) then some ([(k, v)], (skipWs r₂).tail)
            else none
        else none
    else none

end

/-- Deserialization as `json.loads`: parse one value and require only trailing whitespace. -/
def loads (text : List Char) : Option Value :=
  match parseV (text.length + 1) text with
  | some (v, rest) => if skipWs rest = [] then some v else none
  | none => none

/-! ### Round-trip: digit-level lemmas -/

theorem charToDigit_digitChar {d : Nat} (h : d < 10) :
    charToDigit (Nat.digitChar d) = d := by
  interval_cases d <;> decide

theorem digitChar_isDigit {d : Nat} (h : d < 10) :
    (Nat.digitChar d).isDigit = true := by
  interval_cases d <;> decide

theorem printNat_isDigit (n : Nat) : ∀ c ∈ printNat n, c.isDigit = true := by
  intro c hc
  unfold printNat at hc
  split at hc
  · simp only [List.mem_singleton] at hc
    subst hc; decide
  · simp only [List.mem_reverse, List.mem_map] at hc
    obtain ⟨d, hd, rfl⟩ := hc
    exact digitChar_isDigit (Nat.digits_lt_base (by norm_num) hd)

theorem printNat_ne_nil (n : Nat) : printNat n ≠ [] := by
  unfold printNat
  split
  · simp
  · simp_all [Nat.digits_ne_nil_iff_ne_zero]

theorem foldr_digits_eq_ofDigits (l : List Nat) (h : ∀ d ∈ l, d < 10) :
    l.foldr (fun d a => 10 * a + charToDigit (Nat.digitChar d)) 0 = Nat.ofDigits 10 l := by
  induction l with
  | nil => simp [Nat.ofDigits]
  | cons d ds ih =>
    have hd := charToDigit_digitChar (h d (List.mem_cons_self _ _))
    have ihd := ih (fun x hx => h x (List.mem_cons_of_mem _ hx))
    simp only [List.foldr_cons, Nat.ofDigits_cons, hd, ihd]
    ring

theorem natFromDigits_printNat (n : Nat) : natFromDigits (printNat n) = n := by
  unfold printNat natFromDigits
  split
  · subst ‹n = 0›; decide
  · rw [List.foldl_reverse, List.foldr_map,
      foldr_digits_eq_ofDigits _ (fun d hd => Nat.digits_lt_base (by norm_num) hd)]
    exact_mod_cast Nat.ofDigits_digits 10 n

theorem takeWhile_dropWhile_append {p : Char → Bool}
    (l r : List Char) (hl : ∀ c ∈ l, p c = true)
    (hr : ∀ c, r.head? = some c → p c = false) :
    (l ++ r).takeWhile p = l ∧ (l ++ r).dropWhile p = r := by
  induction l with
  | nil =>
    simp only [List.nil_append]
    cases r with
    | nil => simp
    | cons c cs =>
      have := hr c rfl
      simp [List.takeWhile_cons, List.dropWhile_cons, this]
  | cons c cs ih =>
    have hc := hl c (List.mem_cons_self _ _)
    have ihh := ih (fun x hx => hl x (List.mem_cons_of_mem _ hx))
    simp [List.takeWhile_cons, List.dropWhile_cons, hc, ihh]

theorem parseNum_printNat (n : Nat) (rest : List Char)
    (hr : ∀ c, rest.head? = some c → c.isDigit = false) :
    parseNum (printNat n ++ rest) = some (n, rest) := by
  obtain ⟨h1, h2⟩ := takeWhile_dropWhile_append (printNat n) rest (printNat_isDigit n) hr
  have hne : (printNat n).isEmpty = false := by
    cases h : printNat n with
    | nil => exact absurd h (printNat_ne_nil n)
    | cons c cs => simp
  simp [parseNum, h1, h2, hne, natFromDigits_printNat]

/-! ### Round-trip: string-body lemmas -/

theorem parseStrBody_escape (s : List Char) : ∀ rest : List Char,
    parseStrBody (escapeStr s ++ '"' :: rest) = some (s, rest) := by
  induction s with
  | nil =>
    intro rest
    rw [show escapeStr [] ++ '"' :: rest = '"' :: rest from rfl, parseStrBody.eq_def]
    simp
  | cons c cs ih =>
    intro rest
    by_cases hq : c = '"'
    · subst hq
      rw [show escapeStr ('"' :: cs) ++ '"' :: rest =
            '\\' :: '"' :: (escapeStr cs ++ '"' :: rest) by simp [escapeStr, escapeChar],
        parseStrBody.eq_def]
      simp +decide [unescape, ih]
    · by_cases hb : c = '\\'
      · subst hb
        rw [show escapeStr ('\\' :: cs) ++ '"' :: rest =
              '\\' :: '\\' :: (escapeStr cs ++ '"' :: rest) by simp [escapeStr, escapeChar],
          parseStrBody.eq_def]
        simp +decide [unescape, ih]
      · rw [show escapeStr (c :: cs) ++ '"' :: rest =
              c :: (escapeStr cs ++ '"' :: rest) by simp [escapeStr, escapeChar, hq, hb],
          parseStrBody.eq_def]
        simp [hq, hb, ih]

/-! ### Round-trip: whitespace and head-character lemmas -/

theorem skipWs_append_ws (pre l : List Char) (h : ∀ c ∈ pre, isWs c = true) :
    skipWs (pre ++ l) = skipWs l := by
  induction pre with
  | nil => rfl
  | cons c cs ih =>
    have hc := h c (List.mem_cons_self _ _)
    simp [skipWs, hc, ih (fun x hx => h x (List.mem_cons_of_mem _ hx))]

theorem skipWs_not_ws (c : Char) (l : List Char) (h : isWs c = false) :
    skipWs (c :: l) = c :: l := by
  simp [skipWs, h]

theorem isDigit_ne {c : Char} (h : c.isDigit = true) (d : Char) (hd : d.isDigit = false) :
    c ≠ d := by
  intro e
  subst e
  simp [h] at hd

theorem isDigit_not_ws {c : Char} (h : c.isDigit = true) : isWs c = false := by
  have h1 : c ≠ ' ' := isDigit_ne h ' ' (by decide)
  have h2 : c ≠ '\t' := isDigit_ne h '\t' (by decide)
  have h3 : c ≠ '\n' := isDigit_ne h '\n' (by decide)
  have h4 : c ≠ '\r' := isDigit_ne h '\r' (by decide)
  simp [isWs, h1, h2, h3, h4]

/-- The first character of any serialized value: never whitespace and never
a closing delimiter or separator. -/
theorem ser_head (v : Value) :
    ∃ c cs, ser v = c :: cs ∧ isWs c = false ∧ c ≠ ']' ∧ c ≠ '}' ∧ c ≠ ',' := by
  cases v with
  | null => exact ⟨'n', ['u', 'l', 'l'], by simp [ser], by decide, by decide, by decide, by decide⟩
  | bool b =>
    cases b with
    | true => exact ⟨'t', ['r', 'u', 'e'], by simp [ser], by decide, by decide, by decide, by decide⟩
    | false =>
      exact ⟨'f', ['a', 'l', 's', 'e'], by simp [ser], by decide, by decide, by decide, by decide⟩
  | num n =>
    by_cases hn : n < 0
    · exact ⟨'-', printNat n.natAbs, by simp [ser, hn], by decide, by decide, by decide, by decide⟩
    · obtain ⟨c, cs, hc⟩ : ∃ c cs, printNat n.toNat = c :: cs := by
        cases h : printNat n.toNat with
        | nil => exact absurd h (printNat_ne_nil _)
        | cons c cs => exact ⟨c, cs, rfl⟩
      have hd : c.isDigit = true := printNat_isDigit n.toNat c (by simp [hc])
      exact ⟨c, cs, by simp [ser, hn, hc], isDigit_not_ws hd,
        isDigit_ne hd ']' (by decide), isDigit_ne hd '}' (by decide),
        isDigit_ne hd ',' (by decide)⟩
  | str s =>
    exact ⟨'"', escapeStr s ++ ['"'], by simp [ser], by decide, by decide, by decide, by decide⟩
  | arr xs =>
    exact ⟨'[', serElems xs ++ [']'], by simp [ser], by decide, by decide, by decide, by decide⟩
  | obj es =>
    exact ⟨'{', serEntries es ++ ['}'], by simp [ser], by decide, by decide, by decide, by decide⟩

theorem serElems_cons_eq (x : Value) (xs : List Value) :
    ∃ t, serElems (x :: xs) = ser x ++ t := by
  cases xs with
  | nil => exact ⟨[], by simp [serElems]⟩
  | cons y ys => exact ⟨_, rfl⟩

theorem serEntries_cons_eq (k : List Char) (v : Value) (es : List (List Char × Value)) :
    ∃ t, serEntries ((k, v) :: es) = '"' :: (escapeStr k ++ '"' :: ':' :: ' ' :: ser v) ++ t := by
  cases es with
  | nil => exact ⟨[], by simp [serEntries]⟩
  | cons e es' => exact ⟨_, rfl⟩

/-! ### Round-trip: the fuel measure -/

mutual

/-- Fuel needed by `parseV` to consume a serialized value. -/
def need : Value → Nat
  | .arr xs => 1 + needElems xs
  | .obj es => 1 + needEntries es
  | _ => 1

def needElems : List Value → Nat
  | [] => 0
  | x :: xs => 1 + need x + needElems xs

def needEntries : List (List Char × Value) → Nat
  | [] => 0
  | (_, v) :: es => 1 + need v + needEntries es

end

theorem need_pos (v : Value) : 1 ≤ need v := by
  cases v <;> simp [need]

mutual

theorem need_le_ser : (v : Value) → need v ≤ (ser v).length
  | .null => by simp [need, ser]
  | .bool b => by cases b <;> simp [need, ser]
  | .num n => by
    have h0 : (printNat n.natAbs).length ≥ 1 :=
      List.length_pos.mpr (printNat_ne_nil _)
    have h1 : (printNat n.toNat).length ≥ 1 :=
      List.length_pos.mpr (printNat_ne_nil _)
    by_cases hn : n < 0
    · simp only [need, ser, hn, if_true, List.length_cons]
      omega
    · simp only [need, ser, hn, if_false]
      omega
  | .str s => by simp [need, ser]
  | .arr xs => by
    cases xs with
    | nil => simp [need, ser, needElems, serElems]
    | cons x xs' =>
      have h := needElems_le_serElems (x :: xs')
      simp only [need, ser, List.length_cons, List.length_append]
      omega
  | .obj es => by
    cases es with
    | nil => simp [need, ser, needEntries, serEntries]
    | cons e es' =>
      have h := needEntries_le_serEntries (e :: es')
      simp only [need, ser, List.length_cons, List.length_append]
      omega

theorem needElems_le_serElems : (xs : List Value) → needElems xs ≤ (serElems xs).length + 1
  | [] => by simp [needElems, serElems]
  | [x] => by
    have := need_le_ser x
    simp only [needElems, serElems]
    omega
  | x :: y :: ys => by
    have h1 := need_le_ser x
    have h2 := needElems_le_serElems (y :: ys)
    simp only [needElems] at h2
    simp only [needElems, serElems, List.length_append, List.length_cons]
    omega

theorem needEntries_le_serEntries :
    (es : List (List Char × Value)) → needEntries es ≤ (serEntries es).length + 1
  | [] => by simp [needEntries, serEntries]
  | [(k, v)] => by
    have := need_le_ser v
    simp only [needEntries, serEntries, List.length_cons, List.length_append]
    omega
  | (k, v) :: e :: es' => by
    have h1 := need_le_ser v
    have h2 := needEntries_le_serEntries (e :: es')
    obtain ⟨ek, ev⟩ := e
    simp only [needEntries] at h2
    simp only [needEntries, serEntries, List.length_append, List.length_cons]
    omega

end

theorem numSafe_cons {c : Char} (h : c.isDigit = false) (t : List Char) :
    ∀ x, (c :: t).head? = some x → x.isDigit = false := by
  intro x hx
  simp only [List.head?_cons, Option.some.injEq] at hx
  subst hx
  exact h

theorem allWs_space : ∀ c ∈ [' '], isWs c = true := by
  intro c hc
  simp only [List.mem_singleton] at hc
  subst hc
  decide

/-- The central round-trip invariant: with enough fuel, each parser inverts
the corresponding serializer on any input made of optional leading
whitespace, the serialized text, and a suffix that cannot extend a number
(for arrays/objects, the closing delimiter and a suffix). -/
theorem parse_ser : ∀ fuel : Nat,
    (∀ v pre rest, (∀ c ∈ pre, isWs c = true) →
        (∀ c, rest.head? = some c → c.isDigit = false) → need v ≤ fuel →
        parseV fuel (pre ++ (ser v ++ rest)) = some (v, rest)) ∧
    (∀ xs pre rest, xs ≠ [] → (∀ c ∈ pre, isWs c = true) → needElems xs ≤ fuel →
        parseElems fuel (pre ++ (serElems xs ++ ']' :: rest)) = some (xs, rest)) ∧
    (∀ es pre rest, es ≠ [] → (∀ c ∈ pre, isWs c = true) → needEntries es ≤ fuel →
        parseEntries fuel (pre ++ (serEntries es ++ '}' :: rest)) = some (es, rest)) := by
  intro fuel
  induction fuel with
  | zero =>
    refine ⟨?_, ?_, ?_⟩
    · intro v _ _ _ _ h
      exact absurd h (by have := need_pos v; omega)
    · intro xs _ _ hne _ h
      cases xs with
      | nil => exact absurd rfl hne
      | cons x xs' =>
        exfalso
        simp only [needElems] at h
        omega
    · intro es _ _ hne _ h
      cases es with
      | nil => exact absurd rfl hne
      | cons e es' =>
        obtain ⟨k, v⟩ := e
        exfalso
        simp only [needEntries] at h
        omega
  | succ fuel ih =>
    obtain ⟨ihV, ihE, ihO⟩ := ih
    refine ⟨?_, ?_, ?_⟩
    · -- `parseV` inverts `ser`
      intro v pre rest hpre hrest hneed
      cases v with
      | null =>
        have hs : skipWs (pre ++ (ser Value.null ++ rest)) = 'n' :: 'u' :: 'l' :: 'l' :: rest := by
          rw [skipWs_append_ws _ _ hpre]
          simp +decide [ser, skipWs]
        simp +decide [parseV, hs, stripPref]
      | bool b =>
        cases b with
        | true =>
          have hs : skipWs (pre ++ (ser (Value.bool true) ++ rest)) =
              't' :: 'r' :: 'u' :: 'e' :: rest := by
            rw [skipWs_append_ws _ _ hpre]
            simp +decide [ser, skipWs]
          simp +decide [parseV, hs, stripPref]
        | false =>
          have hs : skipWs (pre ++ (ser (Value.bool false) ++ rest)) =
              'f' :: 'a' :: 'l' :: 's' :: 'e' :: rest := by
            rw [skipWs_append_ws _ _ hpre]
            simp +decide [ser, skipWs]
          simp +decide [parseV, hs, stripPref]
      | num n =>
        by_cases hn : n < 0
        · have hs : skipWs (pre ++ (ser (Value.num n) ++ rest)) =
              '-' :: (printNat n.natAbs ++ rest) := by
            rw [skipWs_append_ws _ _ hpre]
            simp +decide [ser, hn, skipWs]
          have hp := parseNum_printNat n.natAbs rest hrest
          simp +decide [parseV, hs, hp]
          rw [abs_of_neg hn, neg_neg]
        · obtain ⟨c, cs, hpn⟩ : ∃ c cs, printNat n.toNat = c :: cs := by
            cases h : printNat n.toNat with
            | nil => exact absurd h (printNat_ne_nil _)
            | cons c cs => exact ⟨c, cs, rfl⟩
          have hcd : c.isDigit = true := printNat_isDigit n.toNat c (by simp [hpn])
          have hsw := skipWs_not_ws c (cs ++ rest) (isDigit_not_ws hcd)
          have hs : skipWs (pre ++ (ser (Value.num n) ++ rest)) = c :: (cs ++ rest) := by
            rw [skipWs_append_ws _ _ hpre]
            simp [ser, hn, hpn, hsw]
          have h1 : c ≠ 'n' := isDigit_ne hcd 'n' (by decide)
          have h2 : c ≠ 't' := isDigit_ne hcd 't' (by decide)
          have h3 : c ≠ 'f' := isDigit_ne hcd 'f' (by decide)
          have h4 : c ≠ '"' := isDigit_ne hcd '"' (by decide)
          have h5 : c ≠ '[' := isDigit_ne hcd '[' (by decide)
          have h6 : c ≠ '{' := isDigit_ne hcd '{' (by decide)
          have h7 : c ≠ '-' := isDigit_ne hcd '-' (by decide)
          have hp := parseNum_printNat n.toNat rest hrest
          rw [hpn] at hp
          have hp' : parseNum (c :: (cs ++ rest)) = some (n.toNat, rest) := by
            simpa using hp
          simp [parseV, hs, h1, h2, h3, h4, h5, h6, h7, hcd, hp']
          omega
      | str s =>
        have hs : skipWs (pre ++ (ser (Value.str s) ++ rest)) =
            '"' :: (escapeStr s ++ '"' :: rest) := by
          rw [skipWs_append_ws _ _ hpre]
          simp +decide [ser, skipWs]
        simp +decide [parseV, hs, parseStrBody_escape]
      | arr xs =>
        cases xs with
        | nil =>
          have hs : skipWs (pre ++ (ser (Value.arr []) ++ rest)) = '[' :: ']' :: rest := by
            rw [skipWs_append_ws _ _ hpre]
            simp +decide [ser, serElems, skipWs]
          simp +decide [parseV, hs, skipWs, headIs]
        | cons x xs' =>
          obtain ⟨t, ht⟩ := serElems_cons_eq x xs'
          obtain ⟨c, cs, hc, hws, hrb, _, _⟩ := ser_head x
          have hsw : skipWs (serElems (x :: xs') ++ ']' :: rest) =
              serElems (x :: xs') ++ ']' :: rest := by
            conv_lhs => rw [ht, hc]
            rw [ht, hc]
            simp only [List.cons_append, List.append_assoc]
            exact skipWs_not_ws _ _ hws
          have hhead : headIs ']' (skipWs (serElems (x :: xs') ++ ']' :: rest)) = false := by
            rw [hsw, ht, hc]
            simp [headIs, hrb]
          have hneed' : needElems (x :: xs') ≤ fuel := by
            simp only [need] at hneed
            omega
          have hE := ihE (x :: xs') [] rest (by simp) (by simp) hneed'
          simp only [List.nil_append] at hE
          have hs : skipWs (pre ++ (ser (Value.arr (x :: xs')) ++ rest)) =
              '[' :: (serElems (x :: xs') ++ ']' :: rest) := by
            rw [skipWs_append_ws _ _ hpre]
            simp +decide [ser, skipWs]
          simp +decide [parseV, hs, hhead, hE]
      | obj es =>
        cases es with
        | nil =>
          have hs : skipWs (pre ++ (ser (Value.obj []) ++ rest)) = '{' :: '}' :: rest := by
            rw [skipWs_append_ws _ _ hpre]
            simp +decide [ser, serEntries, skipWs]
          simp +decide [parseV, hs, skipWs, headIs]
        | cons e es' =>
          obtain ⟨k, v⟩ := e
          obtain ⟨t, ht⟩ := serEntries_cons_eq k v es'
          have hsw : skipWs (serEntries ((k, v) :: es') ++ '}' :: rest) =
              serEntries ((k, v) :: es') ++ '}' :: rest := by
            rw [ht]
            simp only [List.cons_append, List.append_assoc]
            exact skipWs_not_ws _ _ (by decide)
          have hhead : headIs '}' (skipWs (serEntries ((k, v) :: es') ++ '}' :: rest)) = false := by
            rw [hsw, ht]
            simp +decide [headIs]
          have hneed' : needEntries ((k, v) :: es') ≤ fuel := by
            simp only [need] at hneed
            omega
          have hO := ihO ((k, v) :: es') [] rest (by simp) (by simp) hneed'
          simp only [List.nil_append] at hO
          have hs : skipWs (pre ++ (ser (Value.obj ((k, v) :: es')) ++ rest)) =
              '{' :: (serEntries ((k, v) :: es') ++ '}' :: rest) := by
            rw [skipWs_append_ws _ _ hpre]
            simp +decide [ser, skipWs]
          simp +decide [parseV, hs, hhead, hO]
    · -- `parseElems` inverts `serElems`
      intro xs pre rest hne hpre hneed
      cases xs with
      | nil => exact absurd rfl hne
      | cons x xs' =>
        cases xs' with
        | nil =>
          have hneedx : need x ≤ fuel := by
            simp only [needElems] at hneed
            omega
          have hV := ihV x pre (']' :: rest) hpre (numSafe_cons (by decide) rest) hneedx
          simp +decide [parseElems, serElems, hV, skipWs, headIs]
        | cons y ys =>
          have hneedx : need x ≤ fuel := by
            simp only [needElems] at hneed
            omega
          have hneedtail : needElems (y :: ys) ≤ fuel := by
            simp only [needElems] at hneed ⊢
            omega
          have hV := ihV x pre (',' :: ' ' :: (serElems (y :: ys) ++ ']' :: rest)) hpre
            (numSafe_cons (by decide) _) hneedx
          have hE := ihE (y :: ys) [' '] rest (by simp) allWs_space hneedtail
          have hE' : parseElems fuel (' ' :: (serElems (y :: ys) ++ ']' :: rest)) =
              some (y :: ys, rest) := by
            simpa using hE
          have hshape : pre ++ (serElems (x :: y :: ys) ++ ']' :: rest) =
              pre ++ (ser x ++ (',' :: ' ' :: (serElems (y :: ys) ++ ']' :: rest))) := by
            simp [serElems]
          rw [hshape]
          simp +decide [parseElems, hV, skipWs, headIs, hE']
    · -- `parseEntries` inverts `serEntries`
      intro es pre rest hne hpre hneed
      cases es with
      | nil => exact absurd rfl hne
      | cons e es' =>
        obtain ⟨k, v⟩ := e
        cases es' with
        | nil =>
          have hneedv : need v ≤ fuel := by
            simp only [needEntries] at hneed
            omega
          have hV := ihV v [' '] ('}' :: rest) allWs_space (numSafe_cons (by decide) rest) hneedv
          have hV' : parseV fuel (' ' :: (ser v ++ '}' :: rest)) = some (v, '}' :: rest) := by
            simpa using hV
          have hs : skipWs (pre ++ (serEntries [(k, v)] ++ '}' :: rest)) =
              '"' :: (escapeStr k ++ '"' :: ':' :: ' ' :: (ser v ++ '}' :: rest)) := by
            rw [skipWs_append_ws _ _ hpre]
            simp +decide [serEntries, skipWs]
          have hstr := parseStrBody_escape k (':' :: ' ' :: (ser v ++ '}' :: rest))
          simp +decide [parseEntries, hs, hstr, skipWs, headIs, hV']
        | cons e2 es'' =>
          obtain ⟨k2, v2⟩ := e2
          have hneedv : need v ≤ fuel := by
            simp only [needEntries] at hneed
            omega
          have hneedtail : needEntries ((k2, v2) :: es'') ≤ fuel := by
            simp only [needEntries] at hneed ⊢
            omega
          have hV := ihV v [' ']
            (',' :: ' ' :: (serEntries ((k2, v2) :: es'') ++ '}' :: rest)) allWs_space
            (numSafe_cons (by decide) _) hneedv
          have hV' : parseV fuel
              (' ' :: (ser v ++ ',' :: ' ' :: (serEntries ((k2, v2) :: es'') ++ '}' :: rest))) =
              some (v, ',' :: ' ' :: (serEntries ((k2, v2) :: es'') ++ '}' :: rest)) := by
            simpa using hV
          have hO := ihO ((k2, v2) :: es'') [' '] rest (by simp) allWs_space hneedtail
          have hO' : parseEntries fuel (' ' :: (serEntries ((k2, v2) :: es'') ++ '}' :: rest)) =
              some ((k2, v2) :: es'', rest) := by
            simpa using hO
          have hs : skipWs (pre ++ (serEntries ((k, v) :: (k2, v2) :: es'') ++ '}' :: rest)) =
              '"' :: (escapeStr k ++ '"' :: ':' :: ' ' ::
                (ser v ++ ',' :: ' ' :: (serEntries ((k2, v2) :: es'') ++ '}' :: rest))) := by
            rw [skipWs_append_ws _ _ hpre]
            simp +decide [serEntries, skipWs]
          have hstr := parseStrBody_escape k
            (':' :: ' ' :: (ser v ++ ',' :: ' ' :: (serEntries ((k2, v2) :: es'') ++ '}' :: rest)))
          simp +decide [parseEntries, hs, hstr, skipWs, headIs, hV', hO']

/-- Deserializing the serialization of any structured value recovers it. -/
theorem loads_ser (v : Value) : loads (ser v) = some v := by
  have h := (parse_ser ((ser v).length + 1)).1 v [] [] (by simp) (by simp)
    (by have := need_le_ser v; omega)
  simp only [List.nil_append, List.append_nil] at h
  unfold loads
  rw [h]
  simp [skipWs]

/-! ## JVM lifecycle and the bridge operations

`runtime.py` manages one embedded JVM through jpype.  The lifecycle state
is the spec's Runtime Handle; bridge operations additionally report an
event trace (which platform calls were made, in order) and a result or
raised error. -/

/-- The Runtime Handle states: Uninitialized / Running / Stopped. -/
inductive JVMStatus : Type where
  | uninit : JVMStatus
  | running : JVMStatus
  | stopped : JVMStatus
deriving DecidableEq

/-- Observable platform calls made by the bridge, in order. -/
inductive Event : Type where
  | startJVM (jvm_options : List String) : Event
  | serializedRun (configText : List Char) (base_path : String) : Event
  | shutdownJVM : Event
deriving DecidableEq

/-- Errors raised by the bridge (the spec's `EngineStartError`,
`SerializationError`, `DeserializationError`). -/
inductive BridgeError : Type where
  | engineStart : BridgeError
  | serialization : BridgeError
  | deserialization : BridgeError
deriving DecidableEq

/-- The object `_init` returns: the `org.linqs.psl.runtime.Runtime` class
imported from the running JVM — the same object on every call. -/
inductive Handle : Type where
  | runtime : Handle
deriving DecidableEq

/-- Outcome of one bridge operation: resulting JVM state, the platform
calls made, and the returned value or raised error. -/
structure Step (α : Type) : Type where
  state : JVMStatus
  events : List Event
  out : Except BridgeError α

/-- Model of `jpype.isJVMStarted()`: whether a JVM is currently live. -/
def isJVMStarted (s : JVMStatus) : Bool := s = JVMStatus.running

/-- Model of `jpype.startJVM(path, *jvm_options, classpath=[JAR_PATH])`.  The call
(the start attempt) is always recorded.  From a fresh process it starts
the JVM.  Modelled from the spec for the platform-side outcomes the
repository does not contain: an embedded VM cannot be started twice nor
restarted in the same process (spec §3/§9), so those attempts raise. -/
def startJVM (jvm_options : List String) (s : JVMStatus) : Step Unit :=
  match s with
  | .uninit => ⟨.running, [.startJVM jvm_options], .ok ()⟩
  | .running => ⟨.running, [.startJVM jvm_options], .error .engineStart⟩
  | .stopped => ⟨.stopped, [.startJVM jvm_options], .error .engineStart⟩

/-- Model of `jpype.shutdownJVM()`.  Modelled from the spec for the platform side
missing from the repository: stopping is effective when a JVM is live,
otherwise the call is a no-op ("If Uninitialized or already Stopped,
no-op", spec §4.6); `_shutdown` itself adds no guard. -/
def shutdownJVM (s : JVMStatus) : Step Unit :=
  match s with
  | .running => ⟨.stopped, [.shutdownJVM], .ok ()⟩
  | s => ⟨s, [.shutdownJVM], .ok ()⟩

/-- Embedding of `_shutdown()` from `runtime.py`: unconditionally delegates to
`jpype.shutdownJVM()`. -/
def _shutdown (s : JVMStatus) : Step Unit := shutdownJVM s

/-- Embedding of `_init(jvm_options = [])` from `runtime.py`: start the JVM only when
`jpype.isJVMStarted()` is false, then import and return the `Runtime`
class.  A start failure propagates. -/
def _init (jvm_options : List String) (s : JVMStatus) : Step Handle :=
  if isJVMStarted s then ⟨s, [], .ok Handle.runtime⟩
  else
    let st := startJVM jvm_options s
    match st.out with
    | .ok _ => ⟨st.state, st.events, .ok Handle.runtime⟩
    | .error e => ⟨st.state, st.events, .error e⟩

/-- A Python value passed as `config`: either a value of the shared
structured model, or some other Python object, which `json.dumps` rejects
(the spec's `SerializationError`). -/
inductive PyVal : Type where
  | json (v : Value) : PyVal
  | unserializable : PyVal

/-- Model of `json.dumps(config)`: serialized text, or a serialization error. -/
def dumps : PyVal → Except BridgeError (List Char)
  | .json v => .ok (ser v)
  | .unserializable => .error .serialization

/-- Embedding of `run(config, base_path = '.', jvm_options = [])` from `runtime.py`.
`engine` is the JVM entry point `Runtime.serializedRun`, abstracted as a
function from serialized config and base path to result text. -/
def run (engine : List Char → String → List Char) (config : PyVal)
    (base_path : String) (jvm_options : List String) (s : JVMStatus) : Step Value :=
  let st := _init jvm_options s
  match st.out with
  | .error e => ⟨st.state, st.events, .error e⟩
  | .ok _runtime =>
    match dumps config with
    | .error e => ⟨st.state, st.events, .error e⟩
    | .ok text =>
      ⟨st.state, st.events ++ [.serializedRun text base_path],
        match loads (engine text base_path) with
        | some v => .ok v
        | none => .error .deserialization⟩

/-- Calling `run(config)` with only the config supplied: the Python defaults
`base_path = '.'` and `jvm_options = []` apply. -/
def runDefault (engine : List Char → String → List Char) (config : PyVal)
    (s : JVMStatus) : Step Value :=
  run engine config "." [] s

/-- The start events `_init` emits from a given state. -/
def initEvents (s : JVMStatus) (jvm_options : List String) : List Event :=
  if isJVMStarted s then [] else [Event.startJVM jvm_options]

/-! ## The command-line surface (`_load_args`, `main`, `__main__`) -/

/-- Python `str.lower()` on the character list (ASCII case mapping). -/
def pyLower (s : List Char) : List Char := s.map Char.toLower

/-- Python `str.strip()` on the character list: drop surrounding whitespace. -/
def pyStrip (s : List Char) : List Char :=
  ((s.dropWhile Char.isWhitespace).reverse.dropWhile Char.isWhitespace).reverse

/-- Normalization `arg.lower().strip().replace('-', '')` from `_load_args`: lowercase,
strip surrounding whitespace, delete every dash. -/
def normFlag (s : String) : String :=
  String.mk ((pyStrip (pyLower s.data)).filter (fun c => c ≠ '-'))

/-- Membership of one argument's normal form in `{'h', 'help'}`. -/
def isHelpFlag (s : String) : Bool := normFlag s = "h" || normFlag s = "help"

/-- The usage line `"USAGE: python3 %s <config path>" % executable`. -/
def usageMsg (executable : String) : String :=
  "USAGE: python3 " ++ executable ++ " <config path>"

/-- Result of `_load_args`: either the usage line printed to stderr with
the exit status, or the accepted config path. -/
inductive ArgsResult : Type where
  | usage (stderrLine : String) (exitCode : Nat) : ArgsResult
  | ok (configPath : String) : ArgsResult

/-- Embedding of `_load_args(args)` from `runtime.py`: `args` is `sys.argv`, of which
the executable name is popped first; the remainder must be exactly one
positional argument, none of whose normal forms is a help flag. -/
def _load_args (executable : String) (args : List String) : ArgsResult :=
  if args.length != 1 || args.any isHelpFlag then ArgsResult.usage (usageMsg executable) 1
  else ArgsResult.ok args.headI

/-- Model of `os.path.dirname` (posixpath): the text up to and including the last
`/`, then trailing slashes stripped unless the head is entirely slashes;
the empty string when there is no `/`. -/
def dirname (p : String) : String :=
  let chars := p.data
  match chars.reverse.findIdx? (fun c => c = '/') with
  | none => ""
  | some k =>
    let head := chars.take (chars.length - k)
    if head.all (fun c => c = '/') then String.mk head
    else String.mk ((head.reverse.dropWhile (fun c => c = '/')).reverse)

def nSpaces (n : Nat) : List Char := List.replicate n ' '

mutual

/-- Model of `json.dumps(output, indent = 4)`: each container item on its own line
indented four spaces per level, separators `','` and `': '`. -/
def serIndent : Nat → Value → List Char
  | _, .null => ser Value.null
  | _, .bool b => ser (Value.bool b)
  | _, .num n => ser (Value.num n)
  | _, .str s => ser (Value.str s)
  | _, .arr [] => ['[', ']']
  | level, .arr (x :: xs) =>
      '[' :: '\n' :: (serIndentElems (level + 1) (x :: xs) ++
        '\n' :: (nSpaces (4 * level) ++ [']']))
  | _, .obj [] => ['{', '}']
  | level, .obj (e :: es) =>
      '{' :: '\n' :: (serIndentEntries (level + 1) (e :: es) ++
        '\n' :: (nSpaces (4 * level) ++ ['}']))

def serIndentElems : Nat → List Value → List Char
  | _, [] => []
  | level, [x] => nSpaces (4 * level) ++ serIndent level x
  | level, x :: y :: ys =>
      nSpaces (4 * level) ++ serIndent level x ++ ',' :: '\n' :: serIndentElems level (y :: ys)

def serIndentEntries : Nat → List (List Char × Value) → List Char
  | _, [] => []
  | level, [(k, v)] =>
      nSpaces (4 * level) ++ '"' :: (escapeStr k ++ '"' :: ':' :: ' ' :: serIndent level v)
  | level, (k, v) :: e :: es =>
      (nSpaces (4 * level) ++ '"' :: (escapeStr k ++ '"' :: ':' :: ' ' :: serIndent level v)) ++
        ',' :: '\n' :: serIndentEntries level (e :: es)

end

/-- What a full CLI invocation did. -/
inductive CLIOutcome : Type where
  | usageExit (stderrLine : String) (exitCode : Nat) : CLIOutcome
  | printed (stdoutText : List Char) : CLIOutcome
  | fileError (path : String) : CLIOutcome
  | jsonError (path : String) : CLIOutcome
  | bridgeError (e : BridgeError) : CLIOutcome

structure CLIRun : Type where
  outcome : CLIOutcome
  state : JVMStatus
  events : List Event

/-- Embedding of `main(path)` from `runtime.py`: read and `json.load` the config file,
derive `base_path` as the file's directory, run the job, print the result
re-encoded with `indent = 4` (plus `print`'s newline).  `fs` models the
filesystem: contents of readable files. -/
def main (fs : String → Option (List Char)) (engine : List Char → String → List Char)
    (path : String) (s : JVMStatus) : CLIRun :=
  match fs path with
  | none => ⟨.fileError path, s, []⟩
  | some text =>
    match loads text with
    | none => ⟨.jsonError path, s, []⟩
    | some config =>
      let base_path := dirname path
      let st := run engine (PyVal.json config) base_path [] s
      match st.out with
      | .ok output => ⟨.printed (serIndent 0 output ++ ['\n']), st.state, st.events⟩
      | .error e => ⟨.bridgeError e, st.state, st.events⟩

/-- The `__main__` block: `main(_load_args(sys.argv))`, with
`sys.argv = executable :: args`. -/
def cliMain (fs : String → Option (List Char)) (engine : List Char → String → List Char)
    (executable : String) (args : List String) (s : JVMStatus) : CLIRun :=
  match _load_args executable args with
  | .usage msg code => ⟨.usageExit msg code, s, []⟩
  | .ok path => main fs engine path s

/-! ## The claims -/

/-- C1: `run` performs its steps in order: first `_init(jvm_options)`
(the engine start), then serialization of the config, then a single
invocation of `serializedRun` with the serialized text and the base path,
then deserialization of the returned text, which is the result.  When the
config is not serializable, the start events have already been emitted
(the state is Running) and no `serializedRun` invocation occurs. -/
theorem claim_C1_run_step_order (engine : List Char → String → List Char)
    (config : PyVal) (base_path : String) (jvm_options : List String)
    (s : JVMStatus) (h : s ≠ JVMStatus.stopped) :
    (config = PyVal.unserializable →
      run engine config base_path jvm_options s =
        ⟨JVMStatus.running, initEvents s jvm_options, .error .serialization⟩) ∧
    (∀ v, config = PyVal.json v →
      run engine config base_path jvm_options s =
        ⟨JVMStatus.running,
          initEvents s jvm_options ++ [Event.serializedRun (ser v) base_path],
          match loads (engine (ser v) base_path) with
          | some w => .ok w
          | none => .error .deserialization⟩) := by
  constructor
  · rintro rfl
    cases s with
    | uninit => rfl
    | running => rfl
    | stopped => exact absurd rfl h
  · rintro v rfl
    cases s with
    | uninit => rfl
    | running => rfl
    | stopped => exact absurd rfl h

theorem claim_C1_run_step_order_witness :
    run (fun _ _ => ser Value.null) (PyVal.json (Value.num 5)) "." ["-Xmx1g"] JVMStatus.uninit =
      ⟨JVMStatus.running,
        [Event.startJVM ["-Xmx1g"], Event.serializedRun (ser (Value.num 5)) "."],
        Except.ok Value.null⟩ := by
  have h := (claim_C1_run_step_order (fun _ _ => ser Value.null) (PyVal.json (Value.num 5))
    "." ["-Xmx1g"] JVMStatus.uninit (by decide)).2 (Value.num 5) rfl
  rw [h]
  rfl

/-- C2: deserializing the serialization of any value of the shared
structured model yields the value back: `loads (ser v) = some v`, for the
text encoding the bridge uses for `Configuration` and `Result` (numbers
modelled as arbitrary-precision integers). -/
theorem claim_C2_roundtrip (v : Value) : loads (ser v) = some v := loads_ser v

/-- C3: `_init` (ensureStarted) is idempotent: whatever options each call
gets, after a successful first call the second call leaves the state
exactly as the first call left it, emits no further start events, does
not raise, and returns the same existing `Runtime` handle the first call
returned; the second call's options are ignored. -/
theorem claim_C3_init_idempotent (opts₁ opts₂ : List String) (s : JVMStatus)
    (h : s ≠ JVMStatus.stopped) :
    _init opts₂ (_init opts₁ s).state =
      ⟨(_init opts₁ s).state, [], (_init opts₁ s).out⟩ ∧
    (_init opts₁ s).out = .ok Handle.runtime := by
  cases s with
  | uninit => exact ⟨rfl, rfl⟩
  | running => exact ⟨rfl, rfl⟩
  | stopped => exact absurd rfl h

theorem claim_C3_init_idempotent_witness :
    _init ["-Xmx2g"] (_init ["-Xmx1g"] JVMStatus.uninit).state =
      ⟨(_init ["-Xmx1g"] JVMStatus.uninit).state, [], (_init ["-Xmx1g"] JVMStatus.uninit).out⟩ :=
  (claim_C3_init_idempotent ["-Xmx1g"] ["-Xmx2g"] JVMStatus.uninit (by decide)).1

/-- C4 counterexample: the claim "after shutdown no operation initiates a
new engine start" is false on the code: from the Stopped state reached by
`_shutdown`, a subsequent `_init` does emit a `startJVM` attempt, because
the guard only tests `isJVMStarted`. -/
theorem claim_C4_counterexample :
    Event.startJVM [] ∈ (_init [] (_shutdown JVMStatus.running).state).events :=
  List.mem_singleton.mpr rfl

/-- C4 (amended): after `_shutdown` has moved the handle from Running to
Stopped, a subsequent `_init` or `run` DOES initiate a new start attempt
(the started-check sees only that no JVM is currently live), and the
attempt fails with an engine-start error instead of starting a fresh
environment. -/
theorem claim_C4_no_silent_skip_after_stop (opts : List String)
    (engine : List Char → String → List Char) (config : PyVal) (base_path : String) :
    (_shutdown JVMStatus.running).state = JVMStatus.stopped ∧
    _init opts JVMStatus.stopped =
      ⟨JVMStatus.stopped, [Event.startJVM opts], .error .engineStart⟩ ∧
    run engine config base_path opts JVMStatus.stopped =
      ⟨JVMStatus.stopped, [Event.startJVM opts], .error .engineStart⟩ :=
  ⟨rfl, rfl, rfl⟩

/-- C5: `_shutdown` stops the environment and moves the handle to Stopped
exactly when it is Running; from Uninitialized or Stopped it is a no-op
(state unchanged, no error), and in particular a second `_shutdown` in
sequence neither errors nor changes the state. -/
theorem claim_C5_shutdown_noop (s : JVMStatus) :
    ((_shutdown JVMStatus.running).state = JVMStatus.stopped ∧
      (_shutdown JVMStatus.running).out = .ok ()) ∧
    (s ≠ JVMStatus.running → (_shutdown s).state = s ∧ (_shutdown s).out = .ok ()) ∧
    ((_shutdown (_shutdown s).state).out = .ok () ∧
      (_shutdown (_shutdown s).state).state = (_shutdown s).state) := by
  refine ⟨⟨rfl, rfl⟩, ?_, ?_⟩
  · intro h
    cases s with
    | uninit => exact ⟨rfl, rfl⟩
    | running => exact absurd rfl h
    | stopped => exact ⟨rfl, rfl⟩
  · cases s with
    | uninit => exact ⟨rfl, rfl⟩
    | running => exact ⟨rfl, rfl⟩
    | stopped => exact ⟨rfl, rfl⟩

theorem claim_C5_shutdown_noop_witness :
    (_shutdown JVMStatus.uninit).state = JVMStatus.uninit ∧
    (_shutdown JVMStatus.uninit).out = .ok () :=
  (claim_C5_shutdown_noop JVMStatus.uninit).2.1 (by decide)

/-- C6: any invocation with zero or more than one positional argument,
or any argument that normalizes to a help flag, makes the CLI print the
usage line — which contains the executable name — to stderr, exit with
the non-zero status 1, make no platform calls (no engine start), and
leave the JVM state untouched. -/
theorem claim_C6_cli_rejects (fs : String → Option (List Char))
    (engine : List Char → String → List Char) (executable : String)
    (args : List String) (s : JVMStatus)
    (h : args.length ≠ 1 ∨ ∃ a ∈ args, isHelpFlag a = true) :
    cliMain fs engine executable args s =
      ⟨.usageExit (usageMsg executable) 1, s, []⟩ ∧
    (∃ p q, (usageMsg executable).data = p ++ executable.data ++ q) ∧
    (1 : Nat) ≠ 0 := by
  have hb : (args.length != 1 || args.any isHelpFlag) = true := by
    rcases h with h | ⟨a, ha, hflag⟩
    · have : (args.length != 1) = true := bne_iff_ne.mpr h
      simp [this]
    · have : args.any isHelpFlag = true := List.any_eq_true.mpr ⟨a, ha, hflag⟩
      simp [this]
  refine ⟨?_, ⟨"USAGE: python3 ".data, " <config path>".data, ?_⟩, by decide⟩
  · simp [cliMain, _load_args, hb]
  · simp [usageMsg, String.data_append]

theorem claim_C6_cli_rejects_witness :
    cliMain (fun _ => none) (fun _ _ => []) "runtime.py" [] JVMStatus.uninit =
      ⟨.usageExit (usageMsg "runtime.py") 1, JVMStatus.uninit, []⟩ :=
  (claim_C6_cli_rejects (fun _ => none) (fun _ _ => []) "runtime.py" [] JVMStatus.uninit
    (Or.inl (by decide))).1

/-- C7: an accepted invocation (exactly one positional argument, not a
help flag) loads the configuration from the named file, derives the base
path as the file's containing directory, runs the job through `run` (one
engine invocation on the serialized config), and prints the result
re-encoded as indented text. -/
theorem claim_C7_cli_success (fs : String → Option (List Char))
    (engine : List Char → String → List Char) (executable path : String)
    (s : JVMStatus) (text : List Char) (config output : Value)
    (hnothelp : isHelpFlag path = false)
    (hfile : fs path = some text)
    (hjson : loads text = some config)
    (hout : loads (engine (ser config) (dirname path)) = some output)
    (hstate : s ≠ JVMStatus.stopped) :
    cliMain fs engine executable [path] s =
      ⟨.printed (serIndent 0 output ++ ['\n']), JVMStatus.running,
        initEvents s [] ++ [Event.serializedRun (ser config) (dirname path)]⟩ := by
  have hload : _load_args executable [path] = ArgsResult.ok path := by
    simp [_load_args, hnothelp]
  cases s with
  | stopped => exact absurd rfl hstate
  | uninit =>
    simp [cliMain, hload, main, hfile, hjson, run, _init, dumps, hout, initEvents,
      isJVMStarted, startJVM]
  | running =>
    simp [cliMain, hload, main, hfile, hjson, run, _init, dumps, hout, initEvents,
      isJVMStarted, startJVM]

theorem claim_C7_cli_success_witness :
    cliMain (fun p => if p = "job.json" then some (ser (Value.obj [])) else none)
      (fun _ _ => ser (Value.bool true)) "runtime.py" ["job.json"] JVMStatus.uninit =
      ⟨.printed (serIndent 0 (Value.bool true) ++ ['\n']), JVMStatus.running,
        [Event.startJVM [], Event.serializedRun (ser (Value.obj [])) (dirname "job.json")]⟩ := by
  have h := claim_C7_cli_success
    (fun p => if p = "job.json" then some (ser (Value.obj [])) else none)
    (fun _ _ => ser (Value.bool true)) "runtime.py" "job.json" JVMStatus.uninit
    (ser (Value.obj [])) (Value.obj []) (Value.bool true)
    (by decide) (by simp) (loads_ser (Value.obj [])) (loads_ser (Value.bool true)) (by decide)
  rw [h]
  rfl

/-- C8: `run` invoked with only a config takes the documented defaults —
base path `"."` and no JVM options — and those defaults are what reach
the engine invocation and the engine start respectively. -/
theorem claim_C8_run_defaults (engine : List Char → String → List Char)
    (config : PyVal) (s : JVMStatus) :
    runDefault engine config s = run engine config "." [] s ∧
    (∀ v, config = PyVal.json v → s = JVMStatus.uninit →
      (runDefault engine config s).events =
        [Event.startJVM [], Event.serializedRun (ser v) "."]) := by
  refine ⟨rfl, ?_⟩
  rintro v rfl rfl
  rfl

theorem claim_C8_run_defaults_witness :
    (runDefault (fun _ _ => []) (PyVal.json Value.null) JVMStatus.uninit).events =
      [Event.startJVM [], Event.serializedRun (ser Value.null) "."] :=
  (claim_C8_run_defaults (fun _ _ => []) (PyVal.json Value.null) JVMStatus.uninit).2
    Value.null rfl rfl

/-- C9: the help-flag check applies to the positional argument itself:
even with exactly one positional argument, an argument whose lowercased,
whitespace-stripped, dash-stripped form is `h` or `help` makes the CLI
print usage to stderr and exit non-zero instead of treating it as a
config path. -/
theorem claim_C9_help_positional (fs : String → Option (List Char))
    (engine : List Char → String → List Char) (executable a : String) (s : JVMStatus)
    (h : normFlag a = "h" ∨ normFlag a = "help") :
    cliMain fs engine executable [a] s =
      ⟨.usageExit (usageMsg executable) 1, s, []⟩ := by
  have hflag : isHelpFlag a = true := by
    rcases h with h | h <;> simp [isHelpFlag, h]
  simp [cliMain, _load_args, hflag]

theorem claim_C9_help_positional_witness :
    cliMain (fun _ => none) (fun _ _ => []) "runtime.py" ["h-e-l-p"] JVMStatus.uninit =
      ⟨.usageExit (usageMsg "runtime.py") 1, JVMStatus.uninit, []⟩ :=
  claim_C9_help_positional (fun _ => none) (fun _ _ => []) "runtime.py" "h-e-l-p"
    JVMStatus.uninit (Or.inr (by decide))

/-- C10: for a bare filename without a directory separator, the base path
the CLI passes to `run` — and hence to the engine — is the empty string
produced by `dirname`, not the documented default `"."`; the default is
not used on the CLI path. -/
theorem claim_C10_cli_empty_base_path (fs : String → Option (List Char))
    (engine : List Char → String → List Char) (executable path : String)
    (s : JVMStatus) (text : List Char) (config output : Value)
    (hnoslash : '/' ∉ path.data)
    (hnothelp : isHelpFlag path = false)
    (hfile : fs path = some text)
    (hjson : loads text = some config)
    (hout : loads (engine (ser config) "") = some output)
    (hstate : s ≠ JVMStatus.stopped) :
    dirname path = "" ∧
    (cliMain fs engine executable [path] s).events =
      initEvents s [] ++ [Event.serializedRun (ser config) ""] ∧
    ("" : String) ≠ "." := by
  have hdir : dirname path = "" := by
    have hfind : path.data.reverse.findIdx? (fun c => c = '/') = none := by
      rw [List.findIdx?_eq_none_iff]
      intro c hc
      have : c ∈ path.data := List.mem_reverse.mp hc
      simp only [decide_eq_false_iff_not]
      intro heq
      exact hnoslash (heq ▸ this)
    simp [dirname, hfind]
  have hload : _load_args executable [path] = ArgsResult.ok path := by
    simp [_load_args, hnothelp]
  refine ⟨hdir, ?_, by decide⟩
  cases s with
  | stopped => exact absurd rfl hstate
  | uninit =>
    simp [cliMain, hload, main, hfile, hjson, hdir, run, _init, dumps, hout, initEvents,
      isJVMStarted, startJVM]
  | running =>
    simp [cliMain, hload, main, hfile, hjson, hdir, run, _init, dumps, hout, initEvents,
      isJVMStarted, startJVM]

theorem claim_C10_cli_empty_base_path_witness :
    dirname "job.json" = "" ∧
    (cliMain (fun p => if p = "job.json" then some (ser (Value.obj [])) else none)
      (fun _ _ => ser Value.null) "runtime.py" ["job.json"] JVMStatus.uninit).events =
      [Event.startJVM [], Event.serializedRun (ser (Value.obj [])) ""] := by
  have h := claim_C10_cli_empty_base_path
    (fun p => if p = "job.json" then some (ser (Value.obj [])) else none)
    (fun _ _ => ser Value.null) "runtime.py" "job.json" JVMStatus.uninit
    (ser (Value.obj [])) (Value.obj []) Value.null
    (by decide) (by decide) (by simp) (loads_ser (Value.obj [])) (loads_ser Value.null)
    (by decide)
  exact ⟨h.1, by simpa using h.2.1⟩

end PslRuntime
